import Mathlib

/-!
Verification of the scene/engine coordination core of the `motion-man`
repository, shallowly embedded from the Rust source.

The embedding covers:
* the `Engine::run` pump (src/engine.rs:128-173): drain of parked `Present`
  waiters, the message-dispatch loop, pruning of finished scenes, and the
  frame-boundary check `scenes.len() <= waiting.len()`;
* `SceneTask::present` / `SceneTask::update` (src/scene.rs:22-28, 67-69);
* the `Signal` / `NSignal` single-slot channel (src/signal.rs:9-43, 156-169),
  built on a tokio bounded mpsc channel of capacity 1 whose `send` suspends
  while the slot is occupied;
* the `CreateRef` / `CreateNode` dispatch arms and their panics
  (src/engine.rs:140-157), the blanket `AbstractNodeManager` downcasts
  (src/node.rs:32-61) and the raw-node downcast in `SceneTask::spawn`
  (src/scene.rs:44-65);
* `Engine::render` and the shared audio buffer (src/engine.rs:108-116);
* the `Executor` barrier combinator (src/signal.rs:45-133).

Scene coroutines are modelled as scripts of engine messages; the tokio
scheduler's `yield_now` point is modelled deterministically: every runnable
scene runs until it suspends (blocks in `Present` waiting for its oneshot
reply) or its future completes.
-/

namespace MotionMan

/-- The scene-facing constructors of `EngineMessage` (src/engine_message.rs:22-27)
that drive the run-loop pump: `Present` (the oneshot reply slot is tracked via
the sending scene's status) and `Update`.  The `CreateRef` / `CreateNode`
arms are modelled separately below as pure dispatch functions, since they do
not touch the scene registry or the waiter list. -/
inductive SCmd where
  | present
  | update
deriving Repr, DecidableEq

/-- Status of one scene coroutine relative to the Engine:
`running` = executing between suspension points;
`sentPresent` = blocked on the oneshot receiver of a `Present` whose message
is still in the engine inbox;
`waitingFrame` = its `Present` was dispatched, so its oneshot sender sits in
`Engine.waiting`;
`done` = the spawned future has finished (`JoinHandle::is_finished`). -/
inductive SStatus where
  | running
  | sentPresent
  | waitingFrame
  | done
deriving Repr, DecidableEq

/-- One entry of the Engine's scene registry (`EngineScene`, src/engine.rs:21-24)
together with the state of the spawned coroutine: its id, the remaining script
of messages it will send, and its scheduling status. -/
structure MScene where
  id : Nat
  script : List SCmd
  status : SStatus
deriving Repr, DecidableEq

/-- The Engine state relevant to the run loop (src/engine.rs:26-40):
the scene registry, the parked `Present` reply slots (`waiting: Vec<OSend<()>>`,
modelled by the ids of the scenes that sent them), the single shared message
inbox in arrival order, and a counter of how many times the `Update` arm has
swept `node.update()` over the registered managers. -/
structure MEngine where
  scenes : List MScene
  waiting : List Nat
  inbox : List (Nat × SCmd)
  updates : Nat
deriving Repr, DecidableEq

/-- `SceneTask::present` (src/scene.rs:22-28): `for _ in 0..frames` send one
`Present` message and await its oneshot reply; with `frames == 0` it sends
nothing.  As a script this is `frames` copies of `SCmd.present`. -/
def SceneTask.present (frames : Nat) : List SCmd :=
  List.replicate frames SCmd.present

/-- `SceneTask::update` (src/scene.rs:67-69): a one-way send of
`EngineMessage::Update` from scene `sid` into the engine inbox; the scene does
not wait for the Engine to process it. -/
def SceneTask.update (sid : Nat) (e : MEngine) : MEngine :=
  { e with inbox := e.inbox ++ [(sid, SCmd.update)] }

/-- Run one scene coroutine from a suspension point until it suspends again or
finishes: `update` sends are non-suspending (the engine channel has spare
capacity), a `present` sends its message and blocks the scene on the oneshot
receiver, and an exhausted script means the future completes.  Returns the
messages sent (in order), the remaining script, and the new status. -/
def runScene (id : Nat) : List SCmd → List (Nat × SCmd) × List SCmd × SStatus
  | [] => ([], [], SStatus.done)
  | SCmd.present :: rest => ([(id, SCmd.present)], rest, SStatus.sentPresent)
  | SCmd.update :: rest =>
    let r := runScene id rest
    ((id, SCmd.update) :: r.1, r.2)

/-- Effect of one `tokio::task::yield_now` on a single scene: a runnable scene
advances via `runScene`; blocked or finished scenes are untouched. -/
def yieldScene (s : MScene) : MScene × List (Nat × SCmd) :=
  match s.status with
  | SStatus.running =>
    let r := runScene s.id s.script
    ({ s with script := r.2.1, status := r.2.2 }, r.1)
  | _ => (s, [])

/-- The `yield_now().await` point of the pump (src/engine.rs:134): every
runnable scene runs until it suspends or completes, and the messages they sent
join the shared inbox in scene order. -/
def yieldNow (e : MEngine) : MEngine :=
  { e with
    scenes := e.scenes.map fun s => (yieldScene s).1
    inbox := e.inbox ++ e.scenes.flatMap fun s => (yieldScene s).2 }

/-- Dispatch of one received message (src/engine.rs:136-163, the `Present` and
`Update` arms): `Present(send)` pushes the reply slot onto `waiting` and the
sending scene, blocked on the paired receiver, is now parked as a waiter;
`Update` runs `node.update()` on every registered manager. -/
def dispatchMsg (e : MEngine) (m : Nat × SCmd) : MEngine :=
  match m.2 with
  | SCmd.present =>
    { e with
      waiting := e.waiting ++ [m.1]
      scenes := e.scenes.map fun s =>
        if s.id = m.1 ∧ s.status = SStatus.sentPresent then
          { s with status := SStatus.waitingFrame }
        else s }
  | SCmd.update => { e with updates := e.updates + 1 }

/-- `self.receiver.try_recv()` (src/engine.rs:135): take at most one message
from the inbox and dispatch it. -/
def tryRecv (e : MEngine) : MEngine :=
  match e.inbox with
  | [] => e
  | m :: rest => dispatchMsg { e with inbox := rest } m

/-- Pruning of completed scenes (src/engine.rs:166-167):
`scenes.retain(|s| !s.handler.is_finished())`. -/
def pruneScenes (e : MEngine) : MEngine :=
  { e with scenes := e.scenes.filter fun s => s.status ≠ SStatus.done }

/-- One iteration of the `'process` loop body (src/engine.rs:133-168): yield,
try-receive and dispatch one message, prune finished scenes. -/
def pumpStep (e : MEngine) : MEngine :=
  pruneScenes (tryRecv (yieldNow e))

/-- The `'process: loop` of `Engine::run` (src/engine.rs:133-172), with explicit
fuel: after each iteration the pump returns control to the host iff
`scenes.len() <= waiting.len()`; `none` means the fuel ran out before the
frame settled. -/
def pump : Nat → MEngine → Option MEngine
  | 0, _ => none
  | fuel + 1, e =>
    let e2 := pumpStep e
    if e2.scenes.length ≤ e2.waiting.length then some e2 else pump fuel e2

/-- The waiter drain at the top of `Engine::run` (src/engine.rs:129-131): every
parked oneshot receives `()`, resuming its scene; returns the new state and
how many scenes were resumed. -/
def drainWaiters (e : MEngine) : MEngine × Nat :=
  ({ e with
      waiting := []
      scenes := e.scenes.map fun s =>
        if s.status = SStatus.waitingFrame then
          { s with status := SStatus.running }
        else s },
   e.waiting.length)

/-- `Engine::run` (src/engine.rs:128-173): drain the parked waiters, then pump
until the frame settles.  Returns the settled state and the number of scenes
resumed by the drain. -/
def Engine.run (fuel : Nat) (e : MEngine) : Option (MEngine × Nat) :=
  let d := drainWaiters e
  (pump fuel d.1).map fun e2 => (e2, d.2)

/-- The host loop contract: invoke `Engine::run` once per host tick (the host
renders and presents between ticks).  Returns the final state and the list of
per-tick resume counts. -/
def hostTicks (fuel : Nat) : Nat → MEngine → Option (MEngine × List Nat)
  | 0, e => some (e, [])
  | t + 1, e =>
    match Engine.run fuel e with
    | none => none
    | some (e2, r) => (hostTicks fuel t e2).map fun p => (p.1, r :: p.2)

/-! ## Signal channel (src/signal.rs:9-43, 156-169)

`create_signal` builds a tokio bounded mpsc channel of capacity 1: a single
slot.  `Sender::send(..).await` on a full slot suspends the producer until the
consumer receives; it never overwrites the stored value. -/

/-- The capacity-1 channel slot shared by `SignalInner` (producer side) and
`NSignal` (consumer side), plus the producer's cached value
(`Signal.value`, src/signal.rs:13-17). -/
structure SigState (T : Type) where
  slot : Option T
  cached : T
deriving Repr, DecidableEq

/-- `Sender::send` on the capacity-1 channel: succeeds only when the slot is
empty; `none` models the send suspending on a full slot (the producer stays
parked until the consumer frees it). -/
def chanSend {T : Type} (slot : Option T) (v : T) : Option (Option T) :=
  match slot with
  | none => some (some v)
  | some _ => none

/-- A signal owned by scene `sid` together with the engine state that its
`set` talks to. -/
structure SigCtx (T : Type) where
  sid : Nat
  sig : SigState T
  eng : MEngine
deriving Repr, DecidableEq

/-- `Signal::set` (src/signal.rs:35-42): send the value into the bounded
channel (`.await` — suspends while the previous value is unread, modelled by
`none`), then store it in the producer cache, then `SceneTask::update` — a
one-way `Update` message to the Engine.  `some` is the state in which `set`
returns. -/
def Signal.set {T : Type} (c : SigCtx T) (v : T) : Option (SigCtx T) :=
  match chanSend c.sig.slot v with
  | none => none
  | some slot =>
    some { c with
      sig := { slot := slot, cached := v }
      eng := SceneTask.update c.sid c.eng }

/-- `Signal::get` (src/signal.rs:28-33): a synchronous read of the producer's
cached value. -/
def Signal.get {T : Type} (c : SigCtx T) : T :=
  c.sig.cached

/-- `NSignal::get` (src/signal.rs:160-164): the consumer's non-blocking
`try_recv`; returns the stored value, if any, and empties the slot. -/
def NSignal.get {T : Type} (s : SigState T) : Option T × SigState T :=
  match s.slot with
  | some v => (some v, { s with slot := none })
  | none => (none, s)

/-! ## Type-erased dispatch: `CreateRef` / `CreateNode` and downcasts
(src/engine.rs:140-157, src/node.rs:32-61, src/scene.rs:44-65) -/

/-- `Ty` (src/engine_message.rs:7-19): a runtime type tag (`TypeId` modelled as
`Nat`) plus the type name used in diagnostics. -/
structure Ty where
  id : Nat
  name : String
deriving Repr, DecidableEq

/-- `Box<dyn Any + Send + Sync>`: a payload tagged with the `TypeId` of the
concrete type it erases. -/
structure AnyBox where
  tyId : Nat
  val : Nat
deriving Repr, DecidableEq

/-- `Box::<dyn Any>::downcast::<T>`: succeeds exactly when the runtime tag
matches the target type. -/
def AnyBox.downcast (b : AnyBox) (target : Nat) : Option Nat :=
  if b.tyId = target then some b.val else none

/-- One registered manager as the Engine stores it
(`Box<dyn AbstractNodeManager>`, src/engine.rs:37): its runtime tag
(`ty_id()`), the `TypeId`s of its concrete `NodeBuilder` and `RawNode`
associated types, and abstract internal state — how many nodes it has created
(`create_node`) and initialized (`init_node`). -/
structure Mgr where
  tyId : Nat
  builderTyId : Nat
  rawTyId : Nat
  created : Nat
  inited : Nat
deriving Repr, DecidableEq

/-- Blanket `AbstractNodeManager::create_node` (src/node.rs:42-44): run the
concrete manager's `create_node` and box the resulting `RawNode` with its
runtime tag. -/
def Mgr.create_node (m : Mgr) : Mgr × AnyBox :=
  ({ m with created := m.created + 1 }, ⟨m.rawTyId, m.created⟩)

/-- The panic payload of `.unwrap()` on a failed downcast. -/
def downcastPanicMsg : String :=
  "called `Result::unwrap()` on an `Err` value: downcast to a mismatched concrete type"

/-- Blanket `AbstractNodeManager::init_node` (src/node.rs:37-40): downcast the
boxed builder to the concrete `NodeBuilder` type and `unwrap` — a mismatch
panics (`Except.error`). -/
def Mgr.init_node (m : Mgr) (b : AnyBox) : Except String Mgr :=
  match b.downcast m.builderTyId with
  | some _ => Except.ok { m with inited := m.inited + 1 }
  | none => Except.error downcastPanicMsg

/-- The raw-node downcast in `SceneTask::spawn` (src/scene.rs:50-53): the boxed
companion received from the `CreateRef` reply is downcast to the concrete
`RawNode` type and unwrapped — a mismatch panics. -/
def spawnDowncastRaw (expectedRawTy : Nat) (b : AnyBox) : Except String Nat :=
  match b.downcast expectedRawTy with
  | some v => Except.ok v
  | none => Except.error downcastPanicMsg

/-- The panic message of the `CreateRef` arm for an unregistered kind
(src/engine.rs:156). -/
def notRegisteredMsg (ty : Ty) : String :=
  "The `" ++ ty.name ++ "` is not registered! You need to call `Engine::register::<"
    ++ ty.name ++ ">()`"

/-- The `EngineMessage::CreateRef` arm of `Engine::run` (src/engine.rs:148-157):
scan the registered managers for the first whose `ty_id()` equals the tag;
reply with its `create_node()` result on the oneshot; when none matches, panic
with a diagnostic naming the missing kind. -/
def engineCreateRef : List Mgr → Ty → Except String (List Mgr × AnyBox)
  | [], ty => Except.error (notRegisteredMsg ty)
  | m :: ms, ty =>
    if m.tyId = ty.id then
      Except.ok (m.create_node.1 :: ms, m.create_node.2)
    else
      (engineCreateRef ms ty).map fun p => (m :: p.1, p.2)

/-- The `EngineMessage::CreateNode` arm of `Engine::run` (src/engine.rs:140-147):
scan for the first manager whose `ty_id()` equals the tag and run `init_node`
on it (whose downcast may panic); when none matches, the `for` loop simply
ends and the message is dropped — there is no panic in this arm. -/
def engineCreateNode : List Mgr → Ty → AnyBox → Except String (List Mgr)
  | [], _, _ => Except.ok []
  | m :: ms, ty, b =>
    if m.tyId = ty.id then
      (m.init_node b).map fun m2 => m2 :: ms
    else
      (engineCreateNode ms ty b).map fun ms2 => m :: ms2

/-! ## `Engine::render` and the shared audio buffer (src/engine.rs:59-61, 108-116) -/

/-- One registered manager as `Engine::render` sees it: abstract render state
`st` updated by `render(gcx)`, and `audio_process(&mut [f32])` mixing into the
fixed-length sample buffer.  `audioLen` records that a `&mut [f32]` slice
cannot change length. -/
structure RMgr where
  st : Nat
  render : Nat → Nat
  audio_process : Nat → List Float → List Float
  audioLen : ∀ s l, (audio_process s l).length = l.length

/-- The Engine state `Engine::render` touches: the shared audio buffer (sized
once in `Engine::new`, src/engine.rs:59-61) and the registered managers. -/
structure REngine where
  audio_buffer : List Float
  nodes : List RMgr

/-- One iteration of the render loop (src/engine.rs:112-115): `node.render(gcx)`
then `node.audio_process(&mut self.audio_buffer)`. -/
def renderStep (acc : List Float × List RMgr) (m : RMgr) : List Float × List RMgr :=
  let m2 : RMgr := { m with st := m.render m.st }
  (m2.audio_process m2.st acc.1, acc.2 ++ [m2])

/-- `Engine::render` (src/engine.rs:108-116): set every sample of the audio
buffer to `0.0`, then call `render` and `audio_process` on each registered
manager in registration order. -/
def Engine.render (e : REngine) : REngine :=
  let zeroed := e.audio_buffer.map fun _ => (0.0 : Float)
  let r := e.nodes.foldl renderStep (zeroed, [])
  { audio_buffer := r.1, nodes := r.2 }

/-! ## The `Executor` barrier combinator (src/signal.rs:45-133)

A step future (the closure built in `Signal::tween`, src/signal.rs:139-154, or
by a user of `Executor::add`) iterates while its interpolation variable has not
crossed its target bound; each iteration applies the value and then sends `()`
on the step's private capacity-1 channel, where it blocks until the Executor
has received (acknowledged) the signal.  A step future is modelled by the
number of iterations it has left; polling it while its channel is still full
cannot advance it. -/

/-- One step of an Executor (src/signal.rs:46-50): the boxed step future
(`remaining` iterations before it crosses its bound), the contents of its
private capacity-1 completion channel, and the per-round acknowledged flag
(`step.2`). -/
structure MStep where
  remaining : Nat
  chanFull : Bool
  flag : Bool
deriving Repr, DecidableEq

/-- Polling one pending step future: blocked while its completion signal is
unacknowledged; with no iterations left the future returns `Ready` (`none`);
otherwise it performs one iteration and signals its channel. -/
def pollStep (s : MStep) : Option MStep :=
  if s.chanFull then some s
  else if s.remaining = 0 then none
  else some { remaining := s.remaining - 1, chanFull := true, flag := s.flag }

/-- Executor state (src/signal.rs:45-54): the step list, the count of
signalled-and-not-yet-reset steps (`waiting`), and whether a pending end-action
future is stored in `to_wait`. -/
structure MExec where
  steps : List MStep
  waiting : Nat
  toWait : Bool
deriving Repr, DecidableEq

/-- `Executor::new` (src/signal.rs:56-68): no steps, `waiting = 0`, no pending
end action. -/
def Executor.new : MExec :=
  ⟨[], 0, false⟩

/-- `Executor::add` (src/signal.rs:70-83): append a step with a fresh (empty)
capacity-1 channel and flag `false`. -/
def Executor.add (e : MExec) (iters : Nat) : MExec :=
  { e with steps := e.steps ++ [⟨iters, false, false⟩] }

/-- The `retain_mut` phase of `Executor::poll` (src/signal.rs:99-105): each
unacknowledged step is polled and kept iff still pending; acknowledged steps
are kept without being polled. -/
def retainPhase (steps : List MStep) : List MStep :=
  steps.filterMap fun s => if s.flag then some s else pollStep s

/-- The `try_recv` phase of `Executor::poll` (src/signal.rs:107-113): steps
whose channel holds a signal are counted and marked acknowledged. -/
def recvMark (steps : List MStep) : List MStep :=
  steps.map fun s =>
    if s.chanFull then { s with chanFull := false, flag := true } else s

/-- Result of one `Executor::poll`: the new state, whether the future returned
`Ready`, and how many times the shared end action was invoked during the
poll. -/
structure PollResult where
  state : MExec
  ready : Bool
  endRuns : Nat
deriving Repr, DecidableEq

/-- `<Executor as Future>::poll` (src/signal.rs:88-132).  `endReady`: whether a
previously stored pending end action resolves when polled now; `endImmediate`:
whether a freshly invoked end action resolves on its first poll (for the
default `Present(1)` end action it does not — the Engine must settle the frame
first). -/
def Executor.poll (endReady endImmediate : Bool) (e : MExec) : PollResult :=
  if e.toWait && !endReady then ⟨e, false, 0⟩
  else
    let s1 := retainPhase e.steps
    let count := (s1.filter fun s => s.chanFull).length
    let s2 := recvMark s1
    let w := e.waiting + count
    if s1.length ≤ w ∧ s1 ≠ [] then
      let s3 := s2.map fun s => { s with flag := false }
      let tw := !endImmediate
      ⟨⟨s3, 0, tw⟩, s3.isEmpty && !tw, 1⟩
    else
      ⟨⟨s2, w, false⟩, s2.isEmpty, 0⟩

/-! ## Invariants and concrete fixtures -/

/-- The senders of the `Present` messages currently in an inbox. -/
def presentSenders (inbox : List (Nat × SCmd)) : List Nat :=
  (inbox.filter fun m => m.2 = SCmd.present).map Prod.fst

/-- Protocol well-formedness of an engine state, maintained by the run loop:
scene ids are distinct; the parked-waiter list is in bijection with the scenes
in `waitingFrame` status (each parked oneshot belongs to one blocked scene);
every `Present` message still in the inbox was sent by a distinct scene that
is blocked in `sentPresent` status. -/
def Inv (e : MEngine) : Prop :=
  (e.scenes.map MScene.id).Nodup
    ∧ e.waiting.length = (e.scenes.filter fun s => s.status = SStatus.waitingFrame).length
    ∧ (∀ m ∈ e.inbox, m.2 = SCmd.present →
        ∃ s ∈ e.scenes, s.id = m.1 ∧ s.status = SStatus.sentPresent)
    ∧ (presentSenders e.inbox).Nodup

instance (e : MEngine) : Decidable (Inv e) := by
  unfold Inv
  infer_instance

/-- Executor well-formedness: an acknowledged step's channel is empty (it
cannot signal again until its flag is reset), and `waiting` counts exactly the
currently acknowledged steps. -/
def InvExec (e : MExec) : Prop :=
  (∀ s ∈ e.steps, s.flag = true → s.chanFull = false)
    ∧ e.waiting = (e.steps.filter fun s => s.flag).length

instance (e : MExec) : Decidable (InvExec e) := by
  unfold InvExec
  infer_instance

/-- An engine holding a single fresh scene whose script is `present(n)`. -/
def initEngine (n : Nat) : MEngine :=
  ⟨[⟨0, SceneTask.present n, SStatus.running⟩], [], [], 0⟩

/-- The single-scene engine between host ticks: the scene is parked as a
waiter with `m` `Present` calls still ahead of it. -/
def midEngine (m : Nat) : MEngine :=
  ⟨[⟨0, SceneTask.present m, SStatus.waitingFrame⟩], [0], [], 0⟩

/-- A fresh signal for scene 0 over an idle engine. -/
def sigC0 : SigCtx Nat :=
  ⟨0, ⟨none, 0⟩, ⟨[], [], [], 0⟩⟩

/-- `sigC0` right after `set 1` returned: the value sits undelivered in the
slot, the cache holds it, and the one-way `Update` is still in the inbox. -/
def sigC1 : SigCtx Nat :=
  ⟨0, ⟨some 1, 1⟩, ⟨[], [], [(0, SCmd.update)], 0⟩⟩

/-- A registered manager with tag 5 (builder type 6, raw-node type 7). -/
def mgrV : Mgr :=
  ⟨5, 6, 7, 0, 0⟩

/-- A type tag matching no registered manager. -/
def tyRect : Ty :=
  ⟨9, "motion_man::rect::RectManager"⟩

/-- A concrete render manager whose audio pass leaves the buffer unchanged. -/
def rmgrId : RMgr :=
  ⟨0, id, fun _ l => l, fun _ _ => rfl⟩

/-! ## Theorems -/

/-- Claim C3 counterexample: with a fresh signal, `set 1` returns leaving `1`
undelivered; a second `set 2` before the consumer polls suspends (`none`)
instead of superseding the unread value, and the consumer's next poll observes
`1` — not `2` as the claim states. -/
theorem signal_latest_wins_cex :
    Signal.set sigC0 1 = some sigC1
      ∧ Signal.set sigC1 2 = none
      ∧ (NSignal.get sigC1.sig).1 = some 1
      ∧ (NSignal.get sigC1.sig).1 ≠ some 2 := by
  refine ⟨rfl, rfl, rfl, ?_⟩
  decide

/-- Claim C3 (amended): `set a` on an empty slot returns with `a` cached (so
the producer's synchronous `get` returns it) and occupying the single channel
slot; a `set b` issued before the consumer polls suspends — the channel never
holds more than one undelivered value and nothing is superseded — and the
consumer observes `a` and then, once the suspended send completes, `b`. -/
theorem signal_set_blocks_until_polled {T : Type} :
    ∀ (c : SigCtx T) (a b : T), c.sig.slot = none →
      ∃ c1, Signal.set c a = some c1
        ∧ Signal.get c1 = a
        ∧ c1.sig.slot = some a
        ∧ Signal.set c1 b = none
        ∧ (NSignal.get c1.sig).1 = some a
        ∧ ∀ c2, Signal.set { c1 with sig := (NSignal.get c1.sig).2 } b = some c2 →
            (NSignal.get c2.sig).1 = some b ∧ Signal.get c2 = b := by
  intro c a b h
  refine ⟨⟨c.sid, ⟨some a, a⟩, SceneTask.update c.sid c.eng⟩, ?_, rfl, rfl, rfl, rfl, ?_⟩
  · simp [Signal.set, chanSend, h]
  · intro c2 h2
    simp only [Signal.set, chanSend, NSignal.get, Option.some.injEq] at h2
    subst h2
    exact ⟨rfl, rfl⟩

/-- Witness for `signal_set_blocks_until_polled` at the concrete fresh signal
`sigC0` with `a = 1`, `b = 2`. -/
theorem signal_set_blocks_until_polled_witness :
    sigC0.sig.slot = none
      ∧ ∃ c1, Signal.set sigC0 1 = some c1
        ∧ Signal.get c1 = 1
        ∧ c1.sig.slot = some 1
        ∧ Signal.set c1 2 = none
        ∧ (NSignal.get c1.sig).1 = some 1
        ∧ ∀ c2, Signal.set { c1 with sig := (NSignal.get c1.sig).2 } 2 = some c2 →
            (NSignal.get c2.sig).1 = some 2 ∧ Signal.get c2 = 2 :=
  ⟨rfl, signal_set_blocks_until_polled sigC0 1 2 rfl⟩

/-- Claim C5 counterexample: `set 1` on a fresh signal returns while the
`Update` message is still undelivered in the engine inbox and no manager
update sweep has run (`updates = 0`), so no Update round-trip completed before
`set` returned; and a further `set 2` on the now-full slot suspends instead of
displacing the unread value. -/
theorem signal_update_oneway_cex :
    Signal.set sigC0 1 = some sigC1
      ∧ sigC1.eng.updates = 0
      ∧ sigC1.eng.inbox = [(0, SCmd.update)]
      ∧ Signal.set sigC1 2 = none := by
  exact ⟨rfl, rfl, rfl, rfl⟩

/-- Claim C5 (amended): `set v` on an empty slot stores `v` in the producer
cache before returning, places it in the bounded channel (and a `set` while an
unread value is present suspends instead of displacing it), and sends a
one-way `Update` message to the Engine before returning; the message is still
unprocessed when `set` returns — dependent render state refreshes only when
the Engine later dispatches it, which runs `update()` on every manager. -/
theorem signal_set_contract {T : Type} :
    (∀ (c : SigCtx T) (v : T), c.sig.slot = none →
      ∃ c1, Signal.set c v = some c1
        ∧ c1.sig.cached = v
        ∧ c1.sig.slot = some v
        ∧ c1.eng = SceneTask.update c.sid c.eng
        ∧ c1.eng.inbox = c.eng.inbox ++ [(c.sid, SCmd.update)]
        ∧ c1.eng.updates = c.eng.updates)
    ∧ (∀ (c : SigCtx T) (v w : T), c.sig.slot = some w → Signal.set c v = none)
    ∧ (∀ (e : MEngine) (i : Nat), (dispatchMsg e (i, SCmd.update)).updates = e.updates + 1) := by
  refine ⟨?_, ?_, ?_⟩
  · intro c v h
    exact ⟨⟨c.sid, ⟨some v, v⟩, SceneTask.update c.sid c.eng⟩,
      by simp [Signal.set, chanSend, h], rfl, rfl, rfl, rfl, rfl⟩
  · intro c v w h
    simp [Signal.set, chanSend, h]
  · intro e i
    rfl

/-- Witness for `signal_set_contract` at the fresh signal `sigC0`, the
just-set state `sigC1`, and an idle engine. -/
theorem signal_set_contract_witness :
    sigC0.sig.slot = none
      ∧ (∃ c1, Signal.set sigC0 3 = some c1
          ∧ c1.sig.cached = 3
          ∧ c1.sig.slot = some 3
          ∧ c1.eng = SceneTask.update sigC0.sid sigC0.eng
          ∧ c1.eng.inbox = sigC0.eng.inbox ++ [(sigC0.sid, SCmd.update)]
          ∧ c1.eng.updates = sigC0.eng.updates)
      ∧ sigC1.sig.slot = some 1
      ∧ Signal.set sigC1 4 = none
      ∧ (dispatchMsg sigC1.eng (0, SCmd.update)).updates = sigC1.eng.updates + 1 :=
  ⟨rfl, (signal_set_contract (T := Nat)).1 sigC0 3 rfl,
   rfl, (signal_set_contract (T := Nat)).2.1 sigC1 4 1 rfl,
   (signal_set_contract (T := Nat)).2.2 sigC1.eng 0⟩

/-- Claim C4: a `CreateRef` whose tag matches no registered manager panics
with a diagnostic that names the missing kind; when a manager matches, the
first matching manager's `create_node()` result is sent back on the reply
channel (and the registry keeps that manager's updated state in place). -/
theorem createref_unregistered_fatal :
    ∀ ty : Ty,
      (∀ nodes : List Mgr, (∀ m ∈ nodes, m.tyId ≠ ty.id) →
        engineCreateRef nodes ty = Except.error (notRegisteredMsg ty))
      ∧ (∃ a b : String, notRegisteredMsg ty = a ++ ty.name ++ b)
      ∧ (∀ (pre post : List Mgr) (m : Mgr),
          (∀ x ∈ pre, x.tyId ≠ ty.id) → m.tyId = ty.id →
          engineCreateRef (pre ++ m :: post) ty
            = Except.ok (pre ++ m.create_node.1 :: post, m.create_node.2)) := by
  intro ty
  refine ⟨?_, ⟨"The `", "` is not registered! You need to call `Engine::register::<"
      ++ ty.name ++ ">()`", by simp [notRegisteredMsg, String.append_assoc]⟩, ?_⟩
  · intro nodes h
    induction nodes with
    | nil => rfl
    | cons m ms ih =>
      have hm : m.tyId ≠ ty.id := h m (List.mem_cons_self m ms)
      have hrest : ∀ x ∈ ms, x.tyId ≠ ty.id := fun x hx => h x (List.mem_cons_of_mem m hx)
      simp [engineCreateRef, hm, ih hrest, Except.map]
  · intro pre post m hpre hm
    induction pre with
    | nil => simp [engineCreateRef, hm]
    | cons x xs ih =>
      have hx : x.tyId ≠ ty.id := hpre x (List.mem_cons_self x xs)
      have hrest : ∀ y ∈ xs, y.tyId ≠ ty.id := fun y hy => hpre y (List.mem_cons_of_mem x hy)
      simp [engineCreateRef, hx, ih hrest, Except.map]

/-- Witness for `createref_unregistered_fatal`: the tag `tyRect` matches no
manager in `[mgrV]` and panics naming it; a registry whose head carries the
matching tag replies with that manager's `create_node()` result. -/
theorem createref_unregistered_fatal_witness :
    engineCreateRef [mgrV] tyRect = Except.error (notRegisteredMsg tyRect)
      ∧ (∃ a b : String, notRegisteredMsg tyRect = a ++ tyRect.name ++ b)
      ∧ engineCreateRef ([] ++ ⟨9, 6, 7, 0, 0⟩ :: []) tyRect
          = Except.ok ([] ++ (Mgr.create_node ⟨9, 6, 7, 0, 0⟩).1 :: [],
              (Mgr.create_node ⟨9, 6, 7, 0, 0⟩).2) :=
  ⟨(createref_unregistered_fatal tyRect).1 [mgrV] (by decide),
   (createref_unregistered_fatal tyRect).2.1,
   (createref_unregistered_fatal tyRect).2.2 [] [] ⟨9, 6, 7, 0, 0⟩ (by decide) rfl⟩

/-- Claim C6 counterexample: dispatching a `CreateNode` whose tag `tyRect`
matches no registered manager does not terminate the process — the `for` loop
falls through and the message is silently dropped, leaving the registry
unchanged. -/
theorem createnode_unregistered_cex :
    engineCreateNode [mgrV] tyRect ⟨6, 3⟩ = Except.ok [mgrV] := by
  rfl

/-- Claim C6 (amended): a `CreateNode` message whose type tag matches no
registered NodeManager is silently ignored — the dispatch returns normally
with the registry unchanged; the fatal unregistered-kind diagnostic is raised
only by the preceding `CreateRef` for the same kind. -/
theorem createnode_unmatched_ignored :
    ∀ (nodes : List Mgr) (ty : Ty) (b : AnyBox),
      (∀ m ∈ nodes, m.tyId ≠ ty.id) →
      engineCreateNode nodes ty b = Except.ok nodes := by
  intro nodes ty b h
  induction nodes with
  | nil => rfl
  | cons m ms ih =>
    have hm : m.tyId ≠ ty.id := h m (List.mem_cons_self m ms)
    have hrest : ∀ x ∈ ms, x.tyId ≠ ty.id := fun x hx => h x (List.mem_cons_of_mem m hx)
    simp [engineCreateNode, hm, ih hrest, Except.map]

/-- Witness for `createnode_unmatched_ignored` at the concrete registry
`[mgrV]` and the unmatched tag `tyRect`. -/
theorem createnode_unmatched_ignored_witness :
    engineCreateNode [mgrV] tyRect ⟨6, 3⟩ = Except.ok [mgrV] ∧ mgrV.tyId ≠ tyRect.id :=
  ⟨createnode_unmatched_ignored [mgrV] tyRect ⟨6, 3⟩ (by decide), by decide⟩

/-- Claim C8: both type-erased downcast sites panic on a tag mismatch and
succeed on a match: the blanket `AbstractNodeManager::init_node` downcast of
the boxed builder, and the raw-node downcast in `SceneTask::spawn` applied to
the `CreateRef` reply. -/
theorem downcast_mismatch_fatal :
    ∀ (m : Mgr) (b : AnyBox) (t : Nat),
      (b.tyId ≠ m.builderTyId → Mgr.init_node m b = Except.error downcastPanicMsg)
      ∧ (b.tyId = m.builderTyId →
          Mgr.init_node m b = Except.ok { m with inited := m.inited + 1 })
      ∧ (b.tyId ≠ t → spawnDowncastRaw t b = Except.error downcastPanicMsg)
      ∧ (b.tyId = t → spawnDowncastRaw t b = Except.ok b.val) := by
  intro m b t
  refine ⟨fun h => ?_, fun h => ?_, fun h => ?_, fun h => ?_⟩
  · simp [Mgr.init_node, AnyBox.downcast, h]
  · simp [Mgr.init_node, AnyBox.downcast, h]
  · simp [spawnDowncastRaw, AnyBox.downcast, h]
  · simp [spawnDowncastRaw, AnyBox.downcast, h]

/-- Witness for `downcast_mismatch_fatal`: a boxed payload of type 8 fed to
`mgrV` (expecting builder type 6) panics at both sites, and matching payloads
succeed. -/
theorem downcast_mismatch_fatal_witness :
    Mgr.init_node mgrV ⟨8, 3⟩ = Except.error downcastPanicMsg
      ∧ Mgr.init_node mgrV ⟨6, 3⟩ = Except.ok { mgrV with inited := mgrV.inited + 1 }
      ∧ spawnDowncastRaw 7 ⟨8, 3⟩ = Except.error downcastPanicMsg
      ∧ spawnDowncastRaw 7 ⟨7, 3⟩ = Except.ok 3 :=
  ⟨(downcast_mismatch_fatal mgrV ⟨8, 3⟩ 7).1 (by decide),
   (downcast_mismatch_fatal mgrV ⟨6, 3⟩ 7).2.1 rfl,
   (downcast_mismatch_fatal mgrV ⟨8, 3⟩ 7).2.2.1 (by decide),
   (downcast_mismatch_fatal mgrV ⟨7, 3⟩ 7).2.2.2 rfl⟩

/-- Claim C10: an Executor with an end action but no steps resolves on its
first poll without invoking the end action, and in any poll of any Executor
the end action can only run when the step list is non-empty. -/
theorem executor_no_steps_resolves :
    (∀ p q : Bool, Executor.poll p q Executor.new = ⟨Executor.new, true, 0⟩)
      ∧ (∀ (p q : Bool) (e : MExec),
          0 < (Executor.poll p q e).endRuns → (Executor.poll p q e).state.steps ≠ []) := by
  constructor
  · intro p q
    rfl
  · intro p q e h
    simp only [Executor.poll] at h ⊢
    by_cases hw : (e.toWait && !p) = true
    · rw [if_pos hw] at h
      exact absurd h (by simp)
    · rw [if_neg hw] at h
      rw [if_neg hw]
      by_cases hc : (retainPhase e.steps).length ≤
            e.waiting + ((retainPhase e.steps).filter fun s => s.chanFull).length
          ∧ retainPhase e.steps ≠ []
      · rw [if_pos hc]
        simp only [recvMark, ne_eq, List.map_eq_nil_iff]
        exact hc.2
      · rw [if_neg hc] at h
        exact absurd h (by simp)

/-- Witness for `executor_no_steps_resolves`: the first part at both poll
parameters, and the second at a one-step Executor whose first poll completes
its round and invokes the end action. -/
theorem executor_no_steps_resolves_witness :
    Executor.poll false false Executor.new = ⟨Executor.new, true, 0⟩
      ∧ 0 < (Executor.poll false false (Executor.add Executor.new 1)).endRuns
      ∧ (Executor.poll false false (Executor.add Executor.new 1)).state.steps ≠ [] :=
  ⟨executor_no_steps_resolves.1 false false, by decide,
   executor_no_steps_resolves.2 false false (Executor.add Executor.new 1) (by decide)⟩

/-- The render fold never changes the audio buffer's length: each manager's
`audio_process` acts on a `&mut [f32]` slice. -/
theorem renderFoldl_len (ms : List RMgr) :
    ∀ (buf : List Float) (acc : List RMgr),
      ((ms.foldl renderStep (buf, acc)).1).length = buf.length := by
  induction ms with
  | nil => intro buf acc; rfl
  | cons m ms ih =>
    intro buf acc
    simp only [List.foldl_cons]
    calc ((ms.foldl renderStep (renderStep (buf, acc) m)).1).length
        = (renderStep (buf, acc) m).1.length := by
          rw [show renderStep (buf, acc) m
              = ((renderStep (buf, acc) m).1, (renderStep (buf, acc) m).2) from rfl]
          exact ih _ _
      _ = buf.length := m.audioLen _ _

/-- Overwriting every element with the same constant erases the incoming
contents: only the length survives. -/
theorem map_zero_eq (l : List Float) :
    l.map (fun _ => (0.0 : Float)) = List.replicate l.length 0.0 := by
  induction l with
  | nil => rfl
  | cons a t ih => simp [ih, List.replicate_succ]

/-- Claim C9: `Engine::render` first zeroes every sample of the shared audio
buffer and only then runs each manager — so its output never depends on the
previous frame's samples (same managers + same buffer length ⟹ same output),
the buffer's length is preserved, and managers are applied in registration
order (`render` then `audio_process`, first-registered first). -/
theorem render_zeroes_audio :
    (∀ e : REngine, (Engine.render e).audio_buffer.length = e.audio_buffer.length)
      ∧ (∀ e1 e2 : REngine, e1.nodes = e2.nodes →
          e1.audio_buffer.length = e2.audio_buffer.length →
          (Engine.render e1).audio_buffer = (Engine.render e2).audio_buffer)
      ∧ (∀ (buf : List Float) (m1 m2 : RMgr),
          (Engine.render ⟨buf, [m1, m2]⟩).audio_buffer
            = m2.audio_process (m2.render m2.st)
                (m1.audio_process (m1.render m1.st) (buf.map fun _ => (0.0 : Float)))) := by
  refine ⟨?_, ?_, ?_⟩
  · intro e
    simp only [Engine.render]
    rw [renderFoldl_len]
    exact List.length_map _ _
  · intro e1 e2 hn hl
    simp only [Engine.render, hn]
    rw [map_zero_eq, map_zero_eq, hl]
  · intro buf m1 m2
    rfl

/-- Witness for `render_zeroes_audio`: a concrete engine whose manager leaves
the buffer untouched — two different incoming buffers of equal length render
to the same (zeroed) output. -/
theorem render_zeroes_audio_witness :
    (Engine.render ⟨[1.5, 2.5], [rmgrId]⟩).audio_buffer.length
        = (REngine.mk [1.5, 2.5] [rmgrId]).audio_buffer.length
      ∧ (Engine.render ⟨[(1.5 : Float)], [rmgrId]⟩).audio_buffer
          = (Engine.render ⟨[(2.5 : Float)], [rmgrId]⟩).audio_buffer
      ∧ (Engine.render ⟨[(1.5 : Float)], [rmgrId, rmgrId]⟩).audio_buffer
          = rmgrId.audio_process (rmgrId.render rmgrId.st)
              (rmgrId.audio_process (rmgrId.render rmgrId.st)
                ([(1.5 : Float)].map fun _ => (0.0 : Float))) :=
  ⟨render_zeroes_audio.1 ⟨[1.5, 2.5], [rmgrId]⟩,
   render_zeroes_audio.2.1 ⟨[1.5], [rmgrId]⟩ ⟨[2.5], [rmgrId]⟩ rfl rfl,
   render_zeroes_audio.2.2 [1.5] rmgrId rmgrId⟩

/-- One host tick of the single-scene engine between frames: the drain resumes
the parked scene (one resumption, at the start of `run`, before any new
message is processed), the scene issues its next `Present` and parks again,
and the frame settles. -/
theorem run_mid_succ (m : Nat) :
    Engine.run 1 (midEngine (m + 1)) = some (midEngine m, 1) := by
  rfl

/-- The last host tick: the drain resumes the scene (its `n`-th resumption),
its script is exhausted, the scene finishes and is pruned, and the engine is
empty. -/
theorem run_mid_zero :
    Engine.run 1 (midEngine 0) = some (⟨[], [], [], 0⟩, 1) := by
  rfl

/-- The first host tick of a fresh `present n` scene (`n ≥ 1`): nothing is
resumed (the waiter list is empty — a `Present` is never resolved in the tick
that issued it), the scene sends its first `Present` and parks. -/
theorem run_init_succ (n : Nat) :
    Engine.run 1 (initEngine (n + 1)) = some (midEngine n, 0) := by
  rfl

/-- A `present 0` scene sends nothing and finishes on the first tick. -/
theorem run_init_zero :
    Engine.run 1 (initEngine 0) = some (⟨[], [], [], 0⟩, 0) := by
  rfl

/-- Iterating host ticks from the parked single-scene state: `m + 1` further
ticks resume the scene exactly once per tick and empty the engine. -/
theorem hostTicks_mid (m : Nat) :
    hostTicks 1 (m + 1) (midEngine m) = some (⟨[], [], [], 0⟩, List.replicate (m + 1) 1) := by
  induction m with
  | zero => rfl
  | succ k ih =>
    show hostTicks 1 (k + 1 + 1) (midEngine (k + 1))
       = some (⟨[], [], [], 0⟩, List.replicate (k + 1 + 1) 1)
    rw [hostTicks, run_mid_succ k]
    change Option.map (fun p => (p.1, 1 :: p.2)) (hostTicks 1 (k + 1) (midEngine k))
        = some (⟨[], [], [], 0⟩, List.replicate (k + 1 + 1) 1)
    rw [ih]
    rfl

/-- Claim C2: a scene whose script is `present(n)` — equivalently `n`
`present(1)` calls — suspends and resumes exactly `n` times: over `n + 1` host
ticks the per-tick resumption counts are `0, 1, 1, …, 1` (none in the tick
that issued the `Present`, exactly one at the start of each following tick's
`Engine::run`, none skipped), after which the scene registry is empty; and
`present 0` sends no message at all. -/
theorem present_n_resumes_exactly_n :
    ∀ n : Nat,
      SceneTask.present 0 = []
        ∧ (List.replicate n (SceneTask.present 1)).flatten = SceneTask.present n
        ∧ hostTicks 1 (n + 1) (initEngine n)
            = some (⟨[], [], [], 0⟩, 0 :: List.replicate n 1) := by
  intro n
  refine ⟨rfl, ?_, ?_⟩
  · induction n with
    | zero => rfl
    | succ k ih =>
      simp only [SceneTask.present, List.replicate_succ, List.flatten_cons] at ih ⊢
      rw [ih]
      rfl
  · cases n with
    | zero => rfl
    | succ k =>
      rw [hostTicks, run_init_succ k]
      change Option.map (fun p => (p.1, 0 :: p.2)) (hostTicks 1 (k + 1) (midEngine k))
          = some (⟨[], [], [], 0⟩, 0 :: List.replicate (k + 1) 1)
      rw [hostTicks_mid k]
      rfl

/-- `pollStep` never changes a step's acknowledged flag. -/
theorem pollStep_flag {s s2 : MStep} (h : pollStep s = some s2) : s2.flag = s.flag := by
  unfold pollStep at h
  split at h
  · injection h with h2
    rw [← h2]
  · split at h
    · exact absurd h (by simp)
    · injection h with h2
      rw [← h2]

/-- A step future only returns `Ready` (and is dropped by the retain phase)
once it has no iterations left — it has crossed its target bound. -/
theorem pollStep_none_remaining {s : MStep} (h : pollStep s = none) : s.remaining = 0 := by
  unfold pollStep at h
  split at h
  · exact absurd h (by simp)
  · split at h
    · assumption
    · exact absurd h (by simp)

/-- The retain phase keeps every acknowledged step untouched: polling only
happens to unacknowledged steps, so a step that has already signalled this
round cannot advance into its next iteration (the barrier). -/
theorem retainPhase_filter_flag (l : List MStep) :
    (retainPhase l).filter (fun s => s.flag) = l.filter (fun s => s.flag) := by
  induction l with
  | nil => rfl
  | cons s t ih =>
    by_cases hs : s.flag
    · simp only [retainPhase, List.filterMap_cons, if_pos hs] at ih ⊢
      simp [List.filter_cons, hs, ih]
    · simp only [retainPhase, List.filterMap_cons, if_neg hs] at ih ⊢
      cases hp : pollStep s with
      | none => simpa [List.filter_cons, hs] using ih
      | some s2 =>
        have h2 : s2.flag = s.flag := pollStep_flag hp
        simp [List.filter_cons, hs, h2, ih]

/-- Acknowledged steps that survive the retain phase still have an empty
channel. -/
theorem retainPhase_flag_chan {l : List MStep}
    (h : ∀ s ∈ l, s.flag = true → s.chanFull = false) :
    ∀ s2 ∈ retainPhase l, s2.flag = true → s2.chanFull = false := by
  intro s2 hmem hf
  rcases List.mem_filterMap.mp hmem with ⟨s, hs, hfs⟩
  by_cases hflag : s.flag
  · rw [if_pos hflag] at hfs
    injection hfs with h2
    subst h2
    exact h s hs hf
  · rw [if_neg hflag] at hfs
    have := pollStep_flag hfs
    rw [hf] at this
    exact absurd this.symm (by simpa using hflag)

/-- The receive phase preserves the step count. -/
theorem recvMark_length (l : List MStep) : (recvMark l).length = l.length :=
  List.length_map l _

/-- Counting: after the receive phase the acknowledged steps are exactly the
previously acknowledged ones plus the ones whose channel held a signal. -/
theorem recvMark_filter_flag_length (l : List MStep) :
    (∀ s ∈ l, s.flag = true → s.chanFull = false) →
    ((recvMark l).filter (fun s => s.flag)).length
      = (l.filter (fun s => s.flag)).length + (l.filter (fun s => s.chanFull)).length := by
  induction l with
  | nil => intro _; rfl
  | cons s t ih =>
    intro h
    have ht : ∀ x ∈ t, x.flag = true → x.chanFull = false :=
      fun x hx => h x (List.mem_cons_of_mem s hx)
    have iht := ih ht
    by_cases hc : s.chanFull = true
    · have hf : s.flag = false := by
        cases hfv : s.flag
        · rfl
        · rw [h s (List.mem_cons_self s t) hfv] at hc
          exact absurd hc (by simp)
      rw [show recvMark (s :: t)
          = ({ s with chanFull := false, flag := true } : MStep) :: recvMark t from by
        simp [recvMark, hc]]
      simp only [List.filter_cons, hf, hc]
      simp only [if_true, Bool.false_eq_true, if_false, List.length_cons]
      omega
    · have hcf : s.chanFull = false := by simpa using hc
      rw [show recvMark (s :: t) = s :: recvMark t from by simp [recvMark, hcf]]
      cases hfv : s.flag
      · simp only [List.filter_cons, hfv, hcf]
        simpa using iht
      · simp only [List.filter_cons, hfv, hcf]
        simp only [if_true, Bool.false_eq_true, if_false, List.length_cons]
        omega

/-- The receive phase never fills a channel: acknowledged steps come out with
an empty channel. -/
theorem recvMark_flag_chan {l : List MStep}
    (h : ∀ s ∈ l, s.flag = true → s.chanFull = false) :
    ∀ s2 ∈ recvMark l, s2.flag = true → s2.chanFull = false := by
  intro s2 hmem hf
  rcases List.mem_map.mp hmem with ⟨s, hs, hfs⟩
  by_cases hc : s.chanFull
  · rw [if_pos hc] at hfs
    rw [← hfs]
  · rw [if_neg hc] at hfs
    subst hfs
    exact h s hs hf

/-- `Executor::poll` when a stored pending end action does not resolve: the
poll returns `Pending` without touching any step. -/
theorem poll_early {p q : Bool} {e : MExec} (hw : (e.toWait && !p) = true) :
    Executor.poll p q e = ⟨e, false, 0⟩ := by
  simp [Executor.poll, hw]

/-- `Executor::poll` in the round-completing branch: every remaining step has
signalled, so the end action is invoked once, `waiting` and all flags reset. -/
theorem poll_endrun {p q : Bool} {e : MExec} (hw : (e.toWait && !p) = false)
    (hc : (retainPhase e.steps).length
        ≤ e.waiting + ((retainPhase e.steps).filter (fun s => s.chanFull)).length)
    (hne : retainPhase e.steps ≠ []) :
    Executor.poll p q e
      = ⟨⟨(recvMark (retainPhase e.steps)).map (fun s => { s with flag := false }), 0, !q⟩,
         ((recvMark (retainPhase e.steps)).map (fun s => { s with flag := false })).isEmpty
           && !(!q), 1⟩ := by
  simp only [Executor.poll, hw, Bool.false_eq_true, if_false]
  rw [if_pos ⟨hc, hne⟩]

/-- `Executor::poll` in the mid-round branch: the received signals are counted
and acknowledged and the poll stays `Pending` unless all steps are gone. -/
theorem poll_noend {p q : Bool} {e : MExec} (hw : (e.toWait && !p) = false)
    (hc : ¬((retainPhase e.steps).length
        ≤ e.waiting + ((retainPhase e.steps).filter (fun s => s.chanFull)).length
        ∧ retainPhase e.steps ≠ [])) :
    Executor.poll p q e
      = ⟨⟨recvMark (retainPhase e.steps),
          e.waiting + ((retainPhase e.steps).filter (fun s => s.chanFull)).length, false⟩,
         (recvMark (retainPhase e.steps)).isEmpty, 0⟩ := by
  simp only [Executor.poll, hw, Bool.false_eq_true, if_false]
  rw [if_neg hc]

/-- Under the executor invariant, `waiting` still counts the acknowledged
steps after the retain phase. -/
theorem invExec_waiting_retain {e : MExec} (hinv : InvExec e) :
    e.waiting = ((retainPhase e.steps).filter (fun s => s.flag)).length := by
  rw [retainPhase_filter_flag]
  exact hinv.2

/-- Claim C7: per poll of the Executor combinator (under the executor
invariant, which every reachable state satisfies — see the final conjunct):
the shared end action runs at most once per poll, never once per step; it runs
exactly when, after the receive phase, the step list is non-empty and every
remaining step has signalled its iteration; after it runs all step flags and
the `waiting` count are reset for the next round; the combinator's future
resolves exactly when the step list is empty (steps are dropped only once
`pollStep` returns `Ready`, i.e. they crossed their target bound) and no end
action is pending; and an acknowledged step is never polled, so no step
advances into its next iteration before its peers reach the checkpoint. -/
theorem executor_round_barrier :
    ∀ (p q : Bool) (e : MExec), InvExec e →
      (Executor.poll p q e).endRuns ≤ 1
      ∧ ((Executor.poll p q e).endRuns = 1 →
          retainPhase e.steps ≠ []
          ∧ ∀ s ∈ recvMark (retainPhase e.steps), s.flag = true)
      ∧ ((e.toWait && !p) = false → retainPhase e.steps ≠ [] →
          (∀ s ∈ recvMark (retainPhase e.steps), s.flag = true) →
          (Executor.poll p q e).endRuns = 1)
      ∧ ((Executor.poll p q e).endRuns = 1 →
          (∀ s ∈ (Executor.poll p q e).state.steps, s.flag = false)
          ∧ (Executor.poll p q e).state.waiting = 0)
      ∧ ((Executor.poll p q e).ready = true ↔
          (Executor.poll p q e).state.steps = []
            ∧ (Executor.poll p q e).state.toWait = false)
      ∧ ((retainPhase e.steps).filter (fun s => s.flag) = e.steps.filter (fun s => s.flag))
      ∧ (∀ s : MStep, pollStep s = none → s.remaining = 0)
      ∧ InvExec (Executor.poll p q e).state := by
  intro p q e hinv
  have hs1chan : ∀ s ∈ retainPhase e.steps, s.flag = true → s.chanFull = false :=
    retainPhase_flag_chan hinv.1
  have hcount := recvMark_filter_flag_length (retainPhase e.steps) hs1chan
  have hwret := invExec_waiting_retain hinv
  by_cases hw : (e.toWait && !p) = true
  · rw [poll_early hw]
    have htw : e.toWait = true := by
      revert hw
      cases e.toWait <;> simp
    refine ⟨by simp, by simp, ?_, by simp, ?_,
      retainPhase_filter_flag e.steps, fun s h => pollStep_none_remaining h, hinv⟩
    · intro hw2
      rw [hw] at hw2
      exact absurd hw2 (by simp)
    · constructor
      · intro h
        exact absurd h (by simp)
      · rintro ⟨_, h2⟩
        rw [htw] at h2
        exact absurd h2 (by simp)
  · have hwf : (e.toWait && !p) = false := by
      revert hw
      cases (e.toWait && !p) <;> simp
    by_cases hc : (retainPhase e.steps).length
        ≤ e.waiting + ((retainPhase e.steps).filter (fun s => s.chanFull)).length
    case pos =>
      by_cases hne : retainPhase e.steps = []
      case pos =>
        rw [poll_noend hwf (by intro h; exact h.2 hne)]
        refine ⟨by simp, by simp, ?_, by simp, ?_,
          retainPhase_filter_flag e.steps, fun s h => pollStep_none_remaining h, ?_⟩
        · intro _ hne2 _
          exact absurd hne hne2
        · simp [List.isEmpty_iff]
        · refine ⟨recvMark_flag_chan hs1chan, ?_⟩
          rw [hcount, hwret]
      case neg =>
        rw [poll_endrun hwf hc hne]
        have hlenEq : (List.filter (fun s : MStep => s.flag)
              (recvMark (retainPhase e.steps))).length
            = (recvMark (retainPhase e.steps)).length := by
          have h1 := List.length_filter_le (fun s : MStep => s.flag)
            (recvMark (retainPhase e.steps))
          have h2 := recvMark_length (retainPhase e.steps)
          omega
        have hall : ∀ s ∈ recvMark (retainPhase e.steps), s.flag = true :=
          fun s hs => List.filter_length_eq_length.mp hlenEq s hs
        refine ⟨by simp, fun _ => ⟨hne, hall⟩, fun _ _ _ => rfl, ?_, ?_,
          retainPhase_filter_flag e.steps, fun s h => pollStep_none_remaining h, ?_⟩
        · intro _
          refine ⟨?_, rfl⟩
          intro s hs
          rcases List.mem_map.mp hs with ⟨x, _, rfl⟩
          rfl
        · simp [Bool.and_eq_true, List.isEmpty_iff, Bool.not_eq_true']
        · refine ⟨?_, ?_⟩
          · intro s hs hf
            rcases List.mem_map.mp hs with ⟨x, _, rfl⟩
            exact absurd hf (by simp)
          · have : ∀ s ∈ (recvMark (retainPhase e.steps)).map
                (fun s => { s with flag := false }), ¬s.flag = true := by
              intro s hs
              rcases List.mem_map.mp hs with ⟨x, _, rfl⟩
              simp
            rw [List.filter_eq_nil_iff.mpr this]
            rfl
    case neg =>
      rw [poll_noend hwf (by intro h; exact hc h.1)]
      refine ⟨by simp, by simp, ?_, by simp, ?_,
        retainPhase_filter_flag e.steps, fun s h => pollStep_none_remaining h, ?_⟩
      · intro _ hne hall
        have h1 := (List.filter_length_eq_length (p := fun s : MStep => s.flag)).mpr hall
        rw [recvMark_length] at h1
        omega
      · simp [List.isEmpty_iff]
      · refine ⟨recvMark_flag_chan hs1chan, ?_⟩
        rw [hcount, hwret]

/-- Witness for `executor_round_barrier`: a two-step Executor (2 and 1
iterations) in its initial state — the invariant holds, the first poll
completes a round, runs the end action once, and resets both flags. -/
theorem executor_round_barrier_witness :
    InvExec (Executor.add (Executor.add Executor.new 2) 1)
      ∧ ((Executor.poll false false (Executor.add (Executor.add Executor.new 2) 1)).endRuns ≤ 1
      ∧ ((Executor.poll false false (Executor.add (Executor.add Executor.new 2) 1)).endRuns = 1 →
          retainPhase (Executor.add (Executor.add Executor.new 2) 1).steps ≠ []
          ∧ ∀ s ∈ recvMark (retainPhase (Executor.add (Executor.add Executor.new 2) 1).steps),
              s.flag = true)
      ∧ (((Executor.add (Executor.add Executor.new 2) 1).toWait && !false) = false →
          retainPhase (Executor.add (Executor.add Executor.new 2) 1).steps ≠ [] →
          (∀ s ∈ recvMark (retainPhase (Executor.add (Executor.add Executor.new 2) 1).steps),
              s.flag = true) →
          (Executor.poll false false (Executor.add (Executor.add Executor.new 2) 1)).endRuns = 1)
      ∧ ((Executor.poll false false (Executor.add (Executor.add Executor.new 2) 1)).endRuns = 1 →
          (∀ s ∈ (Executor.poll false false
              (Executor.add (Executor.add Executor.new 2) 1)).state.steps, s.flag = false)
          ∧ (Executor.poll false false
              (Executor.add (Executor.add Executor.new 2) 1)).state.waiting = 0)
      ∧ ((Executor.poll false false (Executor.add (Executor.add Executor.new 2) 1)).ready = true ↔
          (Executor.poll false false
              (Executor.add (Executor.add Executor.new 2) 1)).state.steps = []
            ∧ (Executor.poll false false
                (Executor.add (Executor.add Executor.new 2) 1)).state.toWait = false)
      ∧ ((retainPhase (Executor.add (Executor.add Executor.new 2) 1).steps).filter
            (fun s => s.flag)
          = (Executor.add (Executor.add Executor.new 2) 1).steps.filter (fun s => s.flag))
      ∧ (∀ s : MStep, pollStep s = none → s.remaining = 0)
      ∧ InvExec (Executor.poll false false
          (Executor.add (Executor.add Executor.new 2) 1)).state) :=
  ⟨by decide,
   executor_round_barrier false false (Executor.add (Executor.add Executor.new 2) 1) (by decide)⟩

/-- A scene only sends messages tagged with its own id. -/
theorem runScene_senders (i : Nat) (sc : List SCmd) :
    ∀ m ∈ (runScene i sc).1, m.1 = i := by
  induction sc with
  | nil => intro m hm; exact absurd hm (by simp [runScene])
  | cons c rest ih =>
    cases c with
    | present =>
      intro m hm
      simp only [runScene, List.mem_singleton] at hm
      rw [hm]
    | update =>
      intro m hm
      simp only [runScene, List.mem_cons] at hm
      rcases hm with h | h
      · rw [h]
      · exact ih m h

/-- Running a scene to its next suspension point leaves it either blocked in
`Present` or finished. -/
theorem runScene_status (i : Nat) (sc : List SCmd) :
    (runScene i sc).2.2 = SStatus.sentPresent ∨ (runScene i sc).2.2 = SStatus.done := by
  induction sc with
  | nil => exact Or.inr rfl
  | cons c rest ih =>
    cases c with
    | present => exact Or.inl rfl
    | update => exact ih

/-- A scene's burst of messages contains exactly one `Present` — its own —
iff it ended the burst blocked in `Present`, and none otherwise. -/
theorem runScene_presentSenders (i : Nat) (sc : List SCmd) :
    presentSenders (runScene i sc).1
      = if (runScene i sc).2.2 = SStatus.sentPresent then [i] else [] := by
  induction sc with
  | nil => rfl
  | cons c rest ih =>
    cases c with
    | present => rfl
    | update =>
      show presentSenders ((i, SCmd.update) :: (runScene i rest).1) = _
      rw [show presentSenders ((i, SCmd.update) :: (runScene i rest).1)
          = presentSenders (runScene i rest).1 from by simp [presentSenders]]
      exact ih

/-- `yieldScene` never changes a scene's id. -/
theorem yieldScene_id (s : MScene) : (yieldScene s).1.id = s.id := by
  unfold yieldScene
  split <;> rfl

/-- A blocked or finished scene is untouched by a yield. -/
theorem yieldScene_not_running {s : MScene} (h : s.status ≠ SStatus.running) :
    yieldScene s = (s, []) := by
  unfold yieldScene
  split
  · rename_i heq
    exact absurd heq h
  · rfl

/-- A yield neither parks nor unparks a scene as a frame waiter. -/
theorem yieldScene_status_wf (s : MScene) :
    (yieldScene s).1.status = SStatus.waitingFrame ↔ s.status = SStatus.waitingFrame := by
  by_cases h : s.status = SStatus.running
  · constructor
    · intro h2
      unfold yieldScene at h2
      rw [h] at h2
      simp only at h2
      rcases runScene_status s.id s.script with h3 | h3 <;> rw [h3] at h2 <;> cases h2
    · intro h2
      rw [h] at h2
      cases h2
  · rw [yieldScene_not_running h]

/-- The `Present` senders among one scene's yield burst: exactly the scene's
own id when the burst ended parked in `Present`, nothing otherwise. -/
theorem yieldScene_presentSenders (s : MScene) :
    presentSenders (yieldScene s).2
      = if s.status = SStatus.running ∧ (yieldScene s).1.status = SStatus.sentPresent
        then [s.id] else [] := by
  by_cases h : s.status = SStatus.running
  · have h1 : (yieldScene s).2 = (runScene s.id s.script).1 := by
      unfold yieldScene
      rw [h]
    have h2 : (yieldScene s).1.status = (runScene s.id s.script).2.2 := by
      unfold yieldScene
      rw [h]
    rw [h1, h2, runScene_presentSenders]
    by_cases h3 : (runScene s.id s.script).2.2 = SStatus.sentPresent
    · rw [if_pos h3, if_pos ⟨h, h3⟩]
    · rw [if_neg h3, if_neg (fun hx => h3 hx.2)]
  · rw [yieldScene_not_running h]
    rw [if_neg (fun hx => h hx.1)]
    rfl

/-- A `Present` message in a yield burst carries the scene's id and the
scene ended the burst blocked in `Present`. -/
theorem yieldScene_msg_present {s : MScene} :
    ∀ m ∈ (yieldScene s).2, m.2 = SCmd.present →
      m.1 = s.id ∧ (yieldScene s).1.status = SStatus.sentPresent := by
  intro m hm hp
  have hmem : m.1 ∈ presentSenders (yieldScene s).2 := by
    unfold presentSenders
    exact List.mem_map_of_mem Prod.fst (List.mem_filter.mpr ⟨hm, by simp [hp]⟩)
  rw [yieldScene_presentSenders] at hmem
  by_cases hcond : s.status = SStatus.running
      ∧ (yieldScene s).1.status = SStatus.sentPresent
  · rw [if_pos hcond] at hmem
    exact ⟨List.mem_singleton.mp hmem, hcond.2⟩
  · rw [if_neg hcond] at hmem
    exact absurd hmem (List.not_mem_nil m.1)

/-- `presentSenders` distributes over append. -/
theorem presentSenders_append (a b : List (Nat × SCmd)) :
    presentSenders (a ++ b) = presentSenders a ++ presentSenders b := by
  unfold presentSenders
  rw [List.filter_append, List.map_append]

/-- `presentSenders` distributes over flat maps. -/
theorem presentSenders_flatMap (l : List MScene) (f : MScene → List (Nat × SCmd)) :
    presentSenders (l.flatMap f) = l.flatMap fun s => presentSenders (f s) := by
  induction l with
  | nil => rfl
  | cons s t ih =>
    rw [List.flatMap_cons, presentSenders_append, ih, List.flatMap_cons]

/-- A flat map producing singletons under a condition is a filtered map. -/
theorem flatMap_ite (l : List MScene) (p : MScene → Prop) [DecidablePred p]
    (f : MScene → Nat) :
    (l.flatMap fun s => if p s then [f s] else [])
      = (l.filter fun s => decide (p s)).map f := by
  induction l with
  | nil => rfl
  | cons s t ih =>
    rw [List.flatMap_cons, ih]
    by_cases h : p s
    · rw [if_pos h, List.filter_cons_of_pos (by simpa using h), List.map_cons]
      rfl
    · rw [if_neg h, List.filter_cons_of_neg (by simpa using h)]
      rfl

/-- A member of `presentSenders` comes from a `Present` message of the list. -/
theorem mem_presentSenders {l : List (Nat × SCmd)} {i : Nat}
    (h : i ∈ presentSenders l) : ∃ m ∈ l, m.2 = SCmd.present ∧ m.1 = i := by
  unfold presentSenders at h
  rcases List.mem_map.mp h with ⟨m, hm, hi⟩
  rcases List.mem_filter.mp hm with ⟨hmem, hp⟩
  exact ⟨m, hmem, by simpa using hp, hi⟩

/-- Congruence for flat maps. -/
theorem flatMap_congr {l : List MScene} {f g : MScene → List Nat}
    (h : ∀ a ∈ l, f a = g a) : l.flatMap f = l.flatMap g := by
  induction l with
  | nil => rfl
  | cons s t ih =>
    rw [List.flatMap_cons, List.flatMap_cons,
      h s (List.mem_cons_self s t),
      ih fun a ha => h a (List.mem_cons_of_mem s ha)]

/-- The yield point preserves the engine's protocol invariant: scene ids and
the waiter bijection are untouched, and the new burst of messages adds exactly
one `Present` per newly parked scene — distinct ids, all distinct from the
senders already in the inbox. -/
theorem inv_yieldNow {e : MEngine} (h : Inv e) : Inv (yieldNow e) := by
  obtain ⟨hA, hB, hD, hE⟩ := h
  have hid : (List.map (fun s => (yieldScene s).1) e.scenes).map MScene.id
      = e.scenes.map MScene.id := by
    rw [List.map_map]
    exact List.map_congr_left fun s _ => yieldScene_id s
  refine ⟨?_, ?_, ?_, ?_⟩
  · show ((e.scenes.map fun s => (yieldScene s).1).map MScene.id).Nodup
    rw [hid]
    exact hA
  · show e.waiting.length = ((e.scenes.map fun s => (yieldScene s).1).filter
        fun s => s.status = SStatus.waitingFrame).length
    rw [hB,
      List.filter_map (p := fun s : MScene => decide (s.status = SStatus.waitingFrame))
        (fun s => (yieldScene s).1) e.scenes,
      List.length_map]
    congr 1
    apply List.filter_congr
    intro s _
    exact (decide_eq_decide.mpr (yieldScene_status_wf s)).symm
  · intro m hm hp
    rcases List.mem_append.mp hm with hold | hnew
    · rcases hD m hold hp with ⟨s, hs, hsid, hst⟩
      have hnr : s.status ≠ SStatus.running := by
        rw [hst]
        intro hx
        cases hx
      refine ⟨(yieldScene s).1, List.mem_map_of_mem _ hs, ?_, ?_⟩
      · rw [yieldScene_not_running hnr]
        exact hsid
      · rw [yieldScene_not_running hnr]
        exact hst
    · rcases List.mem_flatMap.mp hnew with ⟨s, hs, hm2⟩
      rcases yieldScene_msg_present m hm2 hp with ⟨hid2, hst2⟩
      exact ⟨(yieldScene s).1, List.mem_map_of_mem _ hs,
        by rw [yieldScene_id, hid2], hst2⟩
  · show (presentSenders (e.inbox ++ e.scenes.flatMap fun s => (yieldScene s).2)).Nodup
    rw [presentSenders_append, presentSenders_flatMap]
    rw [flatMap_congr fun s _ => yieldScene_presentSenders s]
    rw [flatMap_ite e.scenes
      (fun s => s.status = SStatus.running
        ∧ (yieldScene s).1.status = SStatus.sentPresent) MScene.id]
    refine List.Nodup.append hE ?_ ?_
    · exact List.Nodup.sublist
        (List.Sublist.map MScene.id (List.filter_sublist e.scenes)) hA
    · intro i h1 h2
      rcases mem_presentSenders h1 with ⟨m, hmem, hp, hi⟩
      rcases hD m hmem hp with ⟨s, hs, hsid, hst⟩
      rcases List.mem_map.mp h2 with ⟨t, ht, hti⟩
      rcases List.mem_filter.mp ht with ⟨htmem, htp⟩
      have htp2 : t.status = SStatus.running :=
        (of_decide_eq_true htp).1
      have : s = t := List.inj_on_of_nodup_map hA hs htmem (by rw [hsid, hi, hti])
      rw [this, htp2] at hst
      cases hst

/-- Parking the one sentPresent scene with id `i` grows the waiter-parked
scene count by exactly one. -/
theorem park_wf_count (scenes : List MScene) (i : Nat)
    (hA : (scenes.map MScene.id).Nodup)
    (s0 : MScene) (hs0 : s0 ∈ scenes) (hid : s0.id = i)
    (hst : s0.status = SStatus.sentPresent) :
    ((scenes.map fun s => if s.id = i ∧ s.status = SStatus.sentPresent
        then { s with status := SStatus.waitingFrame } else s).filter
      fun s => s.status = SStatus.waitingFrame).length
    = (scenes.filter fun s => s.status = SStatus.waitingFrame).length + 1 := by
  induction scenes with
  | nil => cases hs0
  | cons s t ih =>
    have hnodupt : (t.map MScene.id).Nodup := List.Nodup.of_cons hA
    have hhead : s.id ∉ t.map MScene.id := (List.nodup_cons.mp hA).1
    rcases List.mem_cons.mp hs0 with hs0s | hs0t
    · rw [hs0s] at hid hst
      have hpark : (if s.id = i ∧ s.status = SStatus.sentPresent
          then { s with status := SStatus.waitingFrame } else s)
          = { s with status := SStatus.waitingFrame } := if_pos ⟨hid, hst⟩
      have htid : ∀ x ∈ t, ¬(x.id = i ∧ x.status = SStatus.sentPresent) := by
        intro x hx hc
        exact hhead (by rw [hid, ← hc.1]; exact List.mem_map_of_mem MScene.id hx)
      have htmap : (t.map fun x => if x.id = i ∧ x.status = SStatus.sentPresent
          then { x with status := SStatus.waitingFrame } else x) = t := by
        rw [show t = t.map id from (List.map_id t).symm]
        rw [List.map_map]
        exact List.map_congr_left fun x hx => by
          simp only [Function.comp, List.map_id]
          exact if_neg (htid x hx)
      rw [List.map_cons, hpark, htmap]
      rw [List.filter_cons, List.filter_cons]
      have h1 : ({ s with status := SStatus.waitingFrame } : MScene).status
          = SStatus.waitingFrame := rfl
      have h2 : decide (({ s with status := SStatus.waitingFrame } : MScene).status
          = SStatus.waitingFrame) = true := by rw [h1]; rfl
      have h3 : decide (s.status = SStatus.waitingFrame) = false := by
        rw [hst]; rfl
      rw [h2, h3]
      simp
    · have hsid : s.id ≠ i := by
        intro hsi
        exact hhead (by rw [hsi, ← hid]; exact List.mem_map_of_mem MScene.id hs0t)
      have hpark : (if s.id = i ∧ s.status = SStatus.sentPresent
          then { s with status := SStatus.waitingFrame } else s) = s :=
        if_neg fun hc => hsid hc.1
      rw [List.map_cons, hpark, List.filter_cons, List.filter_cons]
      by_cases hw : s.status = SStatus.waitingFrame
      · rw [decide_eq_true hw]
        simp only [if_true, List.length_cons]
        rw [ih hnodupt hs0t]
      · rw [decide_eq_false hw]
        simp only [Bool.false_eq_true, if_false]
        exact ih hnodupt hs0t

/-- Dispatching one message preserves the protocol invariant. -/
theorem inv_tryRecv {e : MEngine} (h : Inv e) : Inv (tryRecv e) := by
  obtain ⟨hA, hB, hD, hE⟩ := h
  rcases hin : e.inbox with _ | ⟨⟨i, c⟩, rest⟩
  · unfold tryRecv
    rw [hin]
    exact ⟨hA, hB, hD, hE⟩
  · have htr : tryRecv e = dispatchMsg { e with inbox := rest } (i, c) := by
      unfold tryRecv
      rw [hin]
    rw [htr]
    have hmem : (i, c) ∈ e.inbox := by rw [hin]; exact List.mem_cons_self _ _
    have hrest : ∀ m ∈ rest, m ∈ e.inbox := by
      intro m hm
      rw [hin]
      exact List.mem_cons_of_mem _ hm
    have hsendersSub : (presentSenders rest).Sublist (presentSenders e.inbox) := by
      rw [hin]
      exact List.Sublist.map Prod.fst
        (List.Sublist.filter _ (List.sublist_cons_self _ _))
    cases c with
    | update =>
      refine ⟨hA, hB, ?_, List.Nodup.sublist hsendersSub hE⟩
      intro m hm hp
      exact hD m (hrest m hm) hp
    | present =>
      rcases hD (i, SCmd.present) hmem rfl with ⟨s0, hs0, hsid, hst⟩
      have hsenders : presentSenders e.inbox = i :: presentSenders rest := by
        rw [hin]
        unfold presentSenders
        rw [List.filter_cons_of_pos (by simp)]
        rfl
      have hEi : i ∉ presentSenders rest := by
        rw [hsenders] at hE
        exact (List.nodup_cons.mp hE).1
      refine ⟨?_, ?_, ?_, ?_⟩
      · show ((e.scenes.map _).map MScene.id).Nodup
        rw [List.map_map]
        have : (MScene.id ∘ fun s : MScene =>
            if s.id = i ∧ s.status = SStatus.sentPresent
            then { s with status := SStatus.waitingFrame } else s) = MScene.id := by
          funext s
          simp only [Function.comp]
          split <;> rfl
        rw [this]
        exact hA
      · show (e.waiting ++ [i]).length = _
        rw [List.length_append, List.length_singleton, hB]
        exact (park_wf_count e.scenes i hA s0 hs0 hsid hst).symm
      · intro m hm hp
        rcases hD m (hrest m hm) hp with ⟨s2, hs2, hs2id, hs2st⟩
        have hmi : m.1 ∈ presentSenders rest := by
          unfold presentSenders
          exact List.mem_map_of_mem Prod.fst (List.mem_filter.mpr ⟨hm, by simp [hp]⟩)
        have hs2i : ¬(s2.id = i ∧ s2.status = SStatus.sentPresent) := by
          intro hc
          exact hEi (by rw [← hc.1, hs2id]; exact hmi)
        refine ⟨(fun s : MScene => if s.id = i ∧ s.status = SStatus.sentPresent
            then { s with status := SStatus.waitingFrame } else s) s2,
          List.mem_map_of_mem _ hs2, ?_, ?_⟩
        · show (if s2.id = i ∧ s2.status = SStatus.sentPresent
              then { s2 with status := SStatus.waitingFrame } else s2).id = m.1
          rw [if_neg hs2i]
          exact hs2id
        · show (if s2.id = i ∧ s2.status = SStatus.sentPresent
              then { s2 with status := SStatus.waitingFrame } else s2).status
              = SStatus.sentPresent
          rw [if_neg hs2i]
          exact hs2st
      · rw [hsenders] at hE
        exact List.Nodup.of_cons hE

/-- Pruning finished scenes preserves the protocol invariant: parked and
`Present`-blocked scenes are never finished, so the bijections survive. -/
theorem inv_prune {e : MEngine} (h : Inv e) : Inv (pruneScenes e) := by
  obtain ⟨hA, hB, hD, hE⟩ := h
  refine ⟨?_, ?_, ?_, hE⟩
  · exact List.Nodup.sublist
      (List.Sublist.map MScene.id (List.filter_sublist e.scenes)) hA
  · show e.waiting.length = ((e.scenes.filter fun s => s.status ≠ SStatus.done).filter
        fun s => s.status = SStatus.waitingFrame).length
    rw [hB, List.filter_filter]
    congr 1
    apply List.filter_congr
    intro s _
    by_cases hw : s.status = SStatus.waitingFrame
    · rw [decide_eq_true hw]
      have : decide (s.status ≠ SStatus.done) = true := by
        rw [decide_eq_true_eq]
        rw [hw]
        intro hx
        cases hx
      rw [this]
      rfl
    · rw [decide_eq_false hw]
      exact (Bool.false_and _).symm
  · intro m hm hp
    rcases hD m hm hp with ⟨s, hs, hsid, hst⟩
    refine ⟨s, List.mem_filter.mpr ⟨hs, ?_⟩, hsid, hst⟩
    rw [decide_eq_true_eq, hst]
    intro hx
    cases hx

/-- One pump iteration preserves the protocol invariant. -/
theorem inv_pumpStep {e : MEngine} (h : Inv e) : Inv (pumpStep e) :=
  inv_prune (inv_tryRecv (inv_yieldNow h))

/-- When the pump returns, the frame-boundary condition holds at the returned
state. -/
theorem pump_some_cond :
    ∀ (fuel : Nat) (e e2 : MEngine), pump fuel e = some e2 →
      e2.scenes.length ≤ e2.waiting.length := by
  intro fuel
  induction fuel with
  | zero =>
    intro e e2 h
    exact absurd h (by simp [pump])
  | succ k ih =>
    intro e e2 h
    rw [pump] at h
    by_cases hc : (pumpStep e).scenes.length ≤ (pumpStep e).waiting.length
    · rw [if_pos hc] at h
      injection h with h2
      rw [← h2]
      exact hc
    · rw [if_neg hc] at h
      exact ih (pumpStep e) e2 h

/-- The pump preserves the protocol invariant up to its returned state. -/
theorem inv_pump :
    ∀ (fuel : Nat) (e e2 : MEngine), pump fuel e = some e2 → Inv e → Inv e2 := by
  intro fuel
  induction fuel with
  | zero =>
    intro e e2 h
    exact absurd h (by simp [pump])
  | succ k ih =>
    intro e e2 h hinv
    rw [pump] at h
    by_cases hc : (pumpStep e).scenes.length ≤ (pumpStep e).waiting.length
    · rw [if_pos hc] at h
      injection h with h2
      rw [← h2]
      exact inv_pumpStep hinv
    · rw [if_neg hc] at h
      exact ih (pumpStep e) e2 h (inv_pumpStep hinv)

/-- A list with a member failing the predicate filters to something shorter. -/
theorem filter_lt_of_exists {l : List MScene} {p : MScene → Bool}
    (h : ∃ s ∈ l, p s = false) : (l.filter p).length < l.length := by
  rcases Nat.lt_or_ge (l.filter p).length l.length with hlt | hge
  · exact hlt
  · exfalso
    have heq : (l.filter p).length = l.length :=
      Nat.le_antisymm (List.length_filter_le p l) hge
    rcases h with ⟨s, hs, hps⟩
    have := List.filter_length_eq_length.mp heq s hs
    rw [hps] at this
    cases this

/-- Claim C1: under the protocol invariant, the run-loop pump returns control
to the host exactly when, at check time after pruning finished scenes, the
number of live scenes is at most the number of parked `Present` waiters — and
at that point every live scene is parked as a waiter; while the check state
still has more live scenes than waiters, or equivalently some live scene not
yet parked, the pump performs another iteration instead of returning. -/
theorem engine_pump_frame_boundary :
    ∀ (fuel : Nat) (e : MEngine), Inv e →
      (∀ e2, pump fuel e = some e2 →
        e2.scenes.length ≤ e2.waiting.length
          ∧ ∀ s ∈ e2.scenes, s.status = SStatus.waitingFrame)
      ∧ ((pumpStep e).waiting.length < (pumpStep e).scenes.length →
          pump (fuel + 1) e = pump fuel (pumpStep e))
      ∧ ((∃ s ∈ (pumpStep e).scenes, s.status ≠ SStatus.waitingFrame) →
          pump (fuel + 1) e = pump fuel (pumpStep e)) := by
  intro fuel e hinv
  have hstepinv : Inv (pumpStep e) := inv_pumpStep hinv
  refine ⟨?_, ?_, ?_⟩
  · intro e2 hret
    have hcond := pump_some_cond fuel e e2 hret
    have hinv2 : Inv e2 := inv_pump fuel e e2 hret hinv
    refine ⟨hcond, ?_⟩
    have hB := hinv2.2.1
    have hle := List.length_filter_le
      (fun s : MScene => decide (s.status = SStatus.waitingFrame)) e2.scenes
    have heq : ((e2.scenes.filter
        fun s : MScene => decide (s.status = SStatus.waitingFrame)).length)
        = e2.scenes.length := by omega
    intro s hs
    exact of_decide_eq_true (List.filter_length_eq_length.mp heq s hs)
  · intro hlt
    rw [pump, if_neg (by omega)]
  · intro hex
    have hB := hstepinv.2.1
    have hlt : ((pumpStep e).scenes.filter
        fun s : MScene => decide (s.status = SStatus.waitingFrame)).length
        < (pumpStep e).scenes.length := by
      apply filter_lt_of_exists
      rcases hex with ⟨s, hs, hns⟩
      exact ⟨s, hs, decide_eq_false hns⟩
    rw [pump, if_neg (by omega)]

/-- Witness for `engine_pump_frame_boundary`: two scenes each scripting one
`Present`.  After one pump iteration only the first scene's `Present` message
has been dispatched — the second is live but not yet parked as a waiter — so
the pump does not return there; with fuel 2 it returns exactly at the state
where both scenes are parked. -/
theorem engine_pump_frame_boundary_witness :
    Inv ⟨[⟨0, SceneTask.present 1, SStatus.running⟩,
          ⟨1, SceneTask.present 1, SStatus.running⟩], [], [], 0⟩
    ∧ ((∀ e2, pump 2 ⟨[⟨0, SceneTask.present 1, SStatus.running⟩,
          ⟨1, SceneTask.present 1, SStatus.running⟩], [], [], 0⟩ = some e2 →
        e2.scenes.length ≤ e2.waiting.length
          ∧ ∀ s ∈ e2.scenes, s.status = SStatus.waitingFrame)
      ∧ ((pumpStep ⟨[⟨0, SceneTask.present 1, SStatus.running⟩,
            ⟨1, SceneTask.present 1, SStatus.running⟩], [], [], 0⟩).waiting.length
          < (pumpStep ⟨[⟨0, SceneTask.present 1, SStatus.running⟩,
            ⟨1, SceneTask.present 1, SStatus.running⟩], [], [], 0⟩).scenes.length →
          pump 3 ⟨[⟨0, SceneTask.present 1, SStatus.running⟩,
            ⟨1, SceneTask.present 1, SStatus.running⟩], [], [], 0⟩
            = pump 2 (pumpStep ⟨[⟨0, SceneTask.present 1, SStatus.running⟩,
              ⟨1, SceneTask.present 1, SStatus.running⟩], [], [], 0⟩))
      ∧ ((∃ s ∈ (pumpStep ⟨[⟨0, SceneTask.present 1, SStatus.running⟩,
            ⟨1, SceneTask.present 1, SStatus.running⟩], [], [], 0⟩).scenes,
            s.status ≠ SStatus.waitingFrame) →
          pump 3 ⟨[⟨0, SceneTask.present 1, SStatus.running⟩,
            ⟨1, SceneTask.present 1, SStatus.running⟩], [], [], 0⟩
            = pump 2 (pumpStep ⟨[⟨0, SceneTask.present 1, SStatus.running⟩,
              ⟨1, SceneTask.present 1, SStatus.running⟩], [], [], 0⟩)))
    ∧ (∃ s ∈ (pumpStep ⟨[⟨0, SceneTask.present 1, SStatus.running⟩,
          ⟨1, SceneTask.present 1, SStatus.running⟩], [], [], 0⟩).scenes,
          s.status ≠ SStatus.waitingFrame) :=
  ⟨by decide,
   engine_pump_frame_boundary 2 ⟨[⟨0, SceneTask.present 1, SStatus.running⟩,
     ⟨1, SceneTask.present 1, SStatus.running⟩], [], [], 0⟩ (by decide),
   by decide⟩

end MotionMan
